import Mathlib

/-!
# robot-gitee-welcome: ownership resolution and reply composition

A shallow embedding of `src/sigs.go` and `src/robot.go`.

* Go strings are `String`; Go slices are `List`.
* `sets.String` (a Go map used as a set) is a duplicate-free list of its
  elements; a Go `map[string]T` is an association list with unique keys.
* The order in which the Go runtime enumerates a map (`range`, `UnsortedList`)
  is not fixed by the language.  It is an explicit argument, `Runtime`: every
  enumeration returns a permutation, chosen by the runtime, of the entries.
* The remote client (`iClient`) is a record of result functions; the comments a
  handler posts are returned next to its error value in an `Outcome`.
* `base64.StdEncoding.DecodeString` and `yaml.Unmarshal` are library functions,
  taken as arguments (`Lib`).
-/

set_option autoImplicit false
set_option maxRecDepth 100000
set_option linter.dupNamespace false

namespace Welcome

/-! ## src/sigs.go -/

/-- Go `Member`. -/
structure Member where
  GiteeID : String
  Name : String
  Organization : String
  Email : String
  deriving DecidableEq, Repr

/-- Go `FileMember`. -/
structure FileMember where
  File : List String
  Owner : List Member
  deriving DecidableEq, Repr

/-- Go `RepoMember`. -/
structure RepoMember where
  Repo : List String
  Owner : List Member
  deriving DecidableEq, Repr

/-- Go `Sig`. -/
structure Sig where
  Name : String
  SigLabel : String
  SigLink : String
  Files : List FileMember
  Repos : List RepoMember
  deriving DecidableEq, Repr

/-- Go `SigYaml`. -/
structure SigYaml where
  Sigs : List Sig
  deriving DecidableEq, Repr

/-- The zero value of `Sig` (`var sig Sig`). -/
def Sig.zero : Sig := ⟨"", "", "", [], []⟩

/-! ## Go library functions used by src/robot.go -/

/-- Go `error` values; `nil` is `none` where an error is returned alone. -/
abbrev Error := String

/-- Go `strings.HasPrefix`. -/
def HasPrefix (s pre : String) : Bool := pre.data.isPrefixOf s.data

/-- Go `strings.Join`. -/
def Join : List String → String → String
  | [], _ => ""
  | [a], _ => a
  | a :: b :: rest, sep => a ++ (sep ++ Join (b :: rest) sep)

/-- The conversion loop of Go `fmt.Sprintf` for string operands and the verb
`%s`, the only verb of the templates of robot.go: every other character is
copied, a verb without an operand prints `%!s(MISSING)`, and operands left
over are reported after the text. -/
def sprintfAux : List Char → List String → List Char
  | [], [] => []
  | [], a :: as =>
    ("%!(EXTRA " ++ Join ((a :: as).map (fun x => "string=" ++ x)) ", " ++ ")").data
  | '%' :: 's' :: fs, a :: as => a.data ++ sprintfAux fs as
  | '%' :: 's' :: fs, [] => "%!s(MISSING)".data ++ sprintfAux fs []
  | c :: fs, as => c :: sprintfAux fs as

/-- Go `fmt.Sprintf(format, args...)` with string operands. -/
def Sprintf (format : String) (args : List String) : String :=
  ⟨sprintfAux format.data args⟩

/-- Go `fmt.Sprintf("%s", msgs)` for a `[]string` operand: the elements
separated by one blank, between square brackets. -/
def SprintfSlice (msgs : List String) : String :=
  "[" ++ (Join msgs " " ++ "]")

/-- Text `t` contains `s` as a contiguous substring. -/
def Contains (t s : String) : Prop := s.data <:+: t.data

instance (t s : String) : Decidable (Contains t s) := by
  unfold Contains; infer_instance

/-- Text `t` ends with `s`. -/
def EndsWith (t s : String) : Prop := s.data <:+ t.data

instance (t s : String) : Decidable (EndsWith t s) := by
  unfold EndsWith; infer_instance

/-- Go `sets.String`: the elements, each once. -/
abbrev StringSet := List String

/-- Go `sets.String.Insert` of one item. -/
def StringSet.insert1 (s : StringSet) (x : String) : StringSet :=
  if x ∈ s then s else s ++ [x]

/-- Go `sets.String.Insert(items...)`. -/
def StringSet.Insert (s : StringSet) (items : List String) : StringSet :=
  items.foldl StringSet.insert1 s

/-- Go `map[string]T`: the entries, each key once. -/
abbrev GoMap (β : Type) := List (String × β)

/-- Go `m[k] = v`. -/
def GoMap.set {β : Type} : GoMap β → String → β → GoMap β
  | [], k, v => [(k, v)]
  | (k0, v0) :: rest, k, v =>
    if k0 = k then (k, v) :: rest else (k0, v0) :: GoMap.set rest k v

/-- One enumeration order of the Go runtime: a permutation of the entries. -/
structure Order where
  enum : {α : Type} → List α → List α
  perm : ∀ {α : Type} (l : List α), (enum l).Perm l

/-- The enumeration orders the runtime picks at the places where robot.go
ranges over a map or calls `UnsortedList`. -/
structure Runtime where
  /-- Order of `range e.GetPRLabelSet()` (robot.go:88). -/
  labelSet : Order
  /-- Order of `firstToConnect.UnsortedList()` (robot.go:254). -/
  owners : Order
  /-- Order of `range sigName` (robot.go:245) and `range sigNames` (robot.go:197). -/
  sigName : Order
  /-- Order of `range repositories` (robot.go:155). -/
  repositories : Order

/-- The runtime that enumerates in insertion order. -/
def Order.inserted : Order := ⟨fun l => l, fun l => List.Perm.refl l⟩

/-- The runtime that enumerates in reverse insertion order. -/
def Order.reversed : Order := ⟨fun l => l.reverse, fun l => List.reverse_perm l⟩

/-- Every enumeration in insertion order. -/
def Runtime.inserted : Runtime :=
  ⟨Order.inserted, Order.inserted, Order.inserted, Order.inserted⟩

/-- Every enumeration in reverse insertion order. -/
def Runtime.reversed : Runtime :=
  ⟨Order.reversed, Order.reversed, Order.reversed, Order.reversed⟩

/-! ## src/robot.go: constants -/

/-- The constant `botName`. -/
def botName : String := "welcome"

/-- The template `forIssueReply` (robot.go:20-24). -/
def forIssueReply : String :=
  "Hi ***%s***, \nif you want to get quick review about your issue, please contact the owner in first: @%s ,\nand then any of the maintainers: @%s ,\nand then any of the committers: @%s ,\nif you have any question, please contact the SIG:%s."

/-- The template `forPRReply` (robot.go:26-30). -/
def forPRReply : String :=
  "Hi ***%s***, \nif you want to get quick review about your pull request, please contact the owner in first: @%s ,\nand then any of the maintainers: @%s ,\nand then any of the committers: @%s ,\nif you have any question, please contact the SIG:%s."

/-- The template `sigLink` (robot.go:32). -/
def sigLink : String := "[%s](%s)"

/-- Whether `sigLabelRegex` (the pattern `(?m)^/sig\s*(.*?)\s*$`) matches:
some line of the text starts with `/sig`, the rest of the pattern matching any
remainder of that line. -/
def sigLabelRegex_MatchString (comment : String) : Bool :=
  (comment.data.splitOn '\n').any (fun line => "/sig".data.isPrefixOf line)

/-- The fixed default handles (robot.go:202 and robot.go:250). -/
def defaultOwners : List String := ["xiangxinyong", "zhangxubo"]

/-! ## src/robot.go: client and events -/

/-- Go `sdk.Content`: the field read by robot.go. -/
structure Content where
  Content : String
  deriving DecidableEq, Repr

/-- Go `sdk.Label`: the field read by robot.go. -/
structure Label where
  Name : String
  deriving DecidableEq, Repr

/-- Go `sdk.PullRequestFiles`: the field read by robot.go. -/
structure PullRequestFiles where
  Filename : String
  deriving DecidableEq, Repr

/-- The methods of `iClient` that the handlers call.  A call returns the same
result throughout one event. -/
structure iClient where
  CreatePRComment : String → String → Int → String → Option Error
  CreateIssueComment : String → String → String → String → Option Error
  GetIssueLabels : String → String → String → Except Error (List Label)
  GetPullRequestChanges : String → String → Int → Except Error (List PullRequestFiles)
  GetPathContent : String → String → String → String → Except Error Content

/-- Go `robot`. -/
structure robot where
  cli : iClient

/-- Bytes returned by the base64 decoder. -/
abbrev Bytes := List Nat

/-- The library decoders called by `decodeSigsContent`. -/
structure Lib where
  /-- Go `base64.StdEncoding.DecodeString`. -/
  DecodeString : String → Except Error Bytes
  /-- Go `yaml.Unmarshal` into a `SigYaml`. -/
  Unmarshal : Bytes → Except Error SigYaml

/-- A comment-posting call made on the client. -/
inductive Posted where
  | prComment (org repo : String) (number : Int) (comment : String)
  | issueComment (org repo number comment : String)
  deriving DecidableEq, Repr

/-- What a handler does: the error it returns (`none` is `nil`) and the
comment-posting calls it made, in order. -/
structure Outcome where
  err : Option Error
  posted : List Posted
  deriving DecidableEq, Repr

/-- Modelled from the spec: the constant `sdk.PRActionUpdatedLabel` of the sdk
package, which is not under src/; it names the label-changed action, and the
handler only compares the action of the event with it. -/
def PRActionUpdatedLabel : String := "update_label"

/-- The data of an `sdk.PullRequestEvent` read by `handlePREvent`. -/
structure PullRequestEvent where
  /-- Result of `sdk.GetPullRequestAction(e)`. -/
  action : String
  org : String
  repo : String
  /-- Result of `e.GetPRAuthor()`. -/
  author : String
  /-- Result of `e.GetPRNumber()`. -/
  number : Int
  /-- Label names of the pull request, from which `GetPRLabelSet` builds a set. -/
  labels : List String
  deriving DecidableEq, Repr

/-- Go `e.GetPRLabelSet()`. -/
def PullRequestEvent.GetPRLabelSet (e : PullRequestEvent) : StringSet :=
  StringSet.Insert [] e.labels

/-- The data of an `sdk.NoteEvent` read by `handleNoteEvent`. -/
structure NoteEvent where
  IsCreatingCommentEvent : Bool
  IsPullRequest : Bool
  org : String
  repo : String
  /-- Result of `e.GetIssueNumber()`. -/
  number : String
  /-- Result of `e.GetIssueAuthor()`. -/
  author : String
  /-- Result of `e.GetComment().GetBody()`. -/
  body : String
  deriving DecidableEq, Repr

/-! ## src/robot.go: registry loading and file owners -/

/-- Go `decodeSigsContent` (robot.go:289-307). -/
def decodeSigsContent (bot : robot) (lib : Lib) : Except Error SigYaml :=
  match bot.cli.GetPathContent "new-op" "community" "test2.yaml" "master" with
  | .error err => .error err
  | .ok fileContent =>
    match lib.DecodeString fileContent.Content with
    | .error err => .error err
    | .ok c =>
      match lib.Unmarshal c with
      | .error err => .error err
      | .ok sigs => .ok sigs

/-- The loop of robot.go:263-273: the values of `sig`, `sigName`, `link` after
ranging over the groups. -/
def selectSig (label : String) (sigs : List Sig) : Sig × String × String :=
  sigs.foldl
    (fun acc s => if label = s.SigLabel then (s, s.Name, s.SigLink) else acc)
    (Sig.zero, "", "")

/-- The loop of robot.go:275-284: the set `first`. -/
def fileOwners (sig : Sig) (fileName : String) : StringSet :=
  sig.Files.foldl
    (fun first s =>
      s.File.foldl
        (fun first ff =>
          if fileName = ff then
            s.Owner.foldl (fun first o => StringSet.insert1 first o.GiteeID) first
          else first)
        first)
    []

/-- Go `getFileOwner` (robot.go:257-287). -/
def getFileOwner (bot : robot) (lib : Lib) (label fileName : String) :
    Except Error (StringSet × String × String) :=
  match decodeSigsContent bot lib with
  | .error err => .error err
  | .ok sigs =>
    let r := selectSig label sigs.Sigs
    .ok (fileOwners r.1 fileName, r.2.1, r.2.2)

/-! ## src/robot.go: the pull-request handler -/

/-- The loop of robot.go:223-231: the set `owners` and the map `sigName` after
ranging over the changed files.  `owners.Insert(fileOwner.UnsortedList()...)`
adds the elements of `fileOwner`; the set it yields does not depend on the
order in which they are listed. -/
def collectOwners (bot : robot) (lib : Lib) (label : String) :
    List PullRequestFiles → StringSet → GoMap String →
      Except Error (StringSet × GoMap String)
  | [], owners, sigName => .ok (owners, sigName)
  | c :: cs, owners, sigName =>
    match getFileOwner bot lib label c.Filename with
    | .error err => .error err
    | .ok (fileOwner, sig, link) =>
      collectOwners bot lib label cs (StringSet.Insert owners fileOwner)
        (GoMap.set sigName sig link)

/-- The fallback of robot.go:249-251 and robot.go:201-203: the default handles
are added when no contact was resolved. -/
def withFallback (owners : StringSet) : StringSet :=
  if owners.length = 0 then StringSet.Insert owners defaultOwners else owners

/-- Modelled from the spec: the identifier `firstToConnect` read at
robot.go:254 has no declaration in src/.  The spec's composer lists the
resolved contacts, so it stands for the contact set `owners` of robot.go:221,
after the fallback of robot.go:249-251. -/
def firstToConnect (owners : StringSet) : StringSet := owners

/-- The loop of robot.go:244-247 and robot.go:196-199: one rendered link per
entry of the group-name map, in enumeration order. -/
def sigsLinks (ord : Order) (sigName : GoMap String) : List String :=
  (ord.enum sigName).map (fun kv => Sprintf sigLink [kv.1, kv.2])

/-- The text returned at robot.go:254. -/
def prReply (rt : Runtime) (author : String) (owners : StringSet)
    (sigName : GoMap String) : String :=
  Sprintf forPRReply
    [author, Join (sigsLinks rt.sigName sigName) "",
      Join (rt.owners.enum (firstToConnect (withFallback owners))) " ,@", ""]

/-- Go `genSpecialWelcomeMessage` (robot.go:214-255). -/
def genSpecialWelcomeMessage (bot : robot) (lib : Lib) (rt : Runtime)
    (org repo author label : String) (number : Int) : Except Error String :=
  match bot.cli.GetPullRequestChanges org repo number with
  | .error err => .error err
  | .ok changes =>
    match collectOwners bot lib label changes [] [] with
    | .error err => .error err
    | .ok (owners, sigName) => .ok (prReply rt author owners sigName)

/-- The loop of robot.go:88-100 over the enumerated labels, with the slice
`msgs` as state. -/
def prLabelLoop (bot : robot) (lib : Lib) (rt : Runtime) (e : PullRequestEvent) :
    List String → List String → Except Error (List String)
  | [], msgs => .ok msgs
  | l :: ls, msgs =>
    if msgs.length > 0 then .ok msgs
    else if HasPrefix l "sig/" then
      match genSpecialWelcomeMessage bot lib rt e.org e.repo e.author l e.number with
      | .error err => .error err
      | .ok msg => prLabelLoop bot lib rt e ls (msgs ++ [msg])
    else prLabelLoop bot lib rt e ls msgs

/-- Go `handlePREvent` (robot.go:78-105). -/
def handlePREvent (bot : robot) (lib : Lib) (rt : Runtime) (e : PullRequestEvent) :
    Outcome :=
  if e.action ≠ PRActionUpdatedLabel then ⟨none, []⟩
  else
    match prLabelLoop bot lib rt e (rt.labelSet.enum e.GetPRLabelSet) [] with
    | .error err => ⟨some err, []⟩
    | .ok msgs =>
      let comment := SprintfSlice msgs
      ⟨bot.cli.CreatePRComment e.org e.repo e.number comment,
        [Posted.prComment e.org e.repo e.number comment]⟩

/-! ## src/robot.go: the issue-comment handler -/

/-- The inner loop of robot.go:144-149: the groups whose label is `l` are
entered in `sigNames` and `repositories` under their name. -/
def enterSigs (l : String) (sigs : List Sig)
    (acc : GoMap String × GoMap (List RepoMember)) :
    GoMap String × GoMap (List RepoMember) :=
  sigs.foldl
    (fun acc sig =>
      if l = sig.SigLabel then
        (GoMap.set acc.1 sig.Name sig.SigLink, GoMap.set acc.2 sig.Name sig.Repos)
      else acc)
    acc

/-- The loop of robot.go:133-151 over the issue labels, with the maps
`sigNames` and `repositories` as state. -/
def noteLabelLoop (bot : robot) (lib : Lib) :
    List Label → GoMap String → GoMap (List RepoMember) →
      Except Error (GoMap String × GoMap (List RepoMember))
  | [], sigNames, repositories => .ok (sigNames, repositories)
  | l :: ls, sigNames, repositories =>
    if sigNames.length > 0 then .ok (sigNames, repositories)
    else if HasPrefix l.Name "sig/" then
      match decodeSigsContent bot lib with
      | .error err => .error err
      | .ok sigs =>
        let acc := enterSigs l.Name sigs.Sigs (sigNames, repositories)
        noteLabelLoop bot lib ls acc.1 acc.2
    else noteLabelLoop bot lib ls sigNames repositories

/-- The loops of robot.go:156-164 for one group `r`: the handles appended to
the slice `owner`. -/
def repoRuleOwners (repo : String) (r : List RepoMember) (owner : List String) :
    List String :=
  r.foldl
    (fun owner rp =>
      rp.Repo.foldl
        (fun owner rps =>
          if repo = rps then
            rp.Owner.foldl (fun owner o => owner ++ [o.GiteeID]) owner
          else owner)
        owner)
    owner

/-- The loop of robot.go:154-165: the slice `owner`, the groups taken in the
enumeration order of the map `repositories`. -/
def repoOwners (ord : Order) (repo : String)
    (repositories : GoMap (List RepoMember)) : List String :=
  (ord.enum repositories).foldl (fun owner kv => repoRuleOwners repo kv.2 owner) []

/-- The slice `owner` after robot.go:201-203. -/
def issueContacts (owner : List String) : List String :=
  if owner.length = 0 then owner ++ defaultOwners else owner

/-- The text built at robot.go:209. -/
def issueReply (author : String) (owner : List String) : String :=
  Sprintf forIssueReply [author, Join (issueContacts owner) " , @", "", "", ""]

/-- Go `handleNoteEvent` (robot.go:107-212).  The links of robot.go:196-199 are
built and not used; `fmt.Println` writes to the standard output only. -/
def handleNoteEvent (bot : robot) (lib : Lib) (rt : Runtime) (e : NoteEvent) :
    Outcome :=
  if !e.IsCreatingCommentEvent then ⟨none, []⟩
  else if e.IsPullRequest then ⟨none, []⟩
  else if !sigLabelRegex_MatchString e.body then ⟨none, []⟩
  else
    match bot.cli.GetIssueLabels e.org e.repo e.number with
    | .error err => ⟨some err, []⟩
    | .ok labels =>
      match noteLabelLoop bot lib labels [] [] with
      | .error err => ⟨some err, []⟩
      | .ok (_sigNames, repositories) =>
        let owner := repoOwners rt.repositories e.repo repositories
        let message := issueReply e.author owner
        ⟨bot.cli.CreateIssueComment e.org e.repo e.number message,
          [Posted.issueComment e.org e.repo e.number message]⟩

/-! ## Example inputs -/

/-- A registry with the group of the specification's example. -/
def storageRegistry : SigYaml :=
  ⟨[⟨"storage", "sig/storage", "https://example.org/storage",
      [⟨["a.go"], [⟨"alice", "", "", ""⟩]⟩], [⟨["repo"], [⟨"alice", "", "", ""⟩]⟩]⟩]⟩

/-- A client whose calls succeed: the issue carries the label `sig/storage`
and the pull request changes the file `a.go`. -/
def storageBot : robot :=
  ⟨⟨fun _ _ _ _ => none, fun _ _ _ _ => none, fun _ _ _ => .ok [⟨"sig/storage"⟩],
    fun _ _ _ => .ok [⟨"a.go"⟩], fun _ _ _ _ => .ok ⟨"c2lnczo="⟩⟩⟩

/-- Decoders that yield `storageRegistry`. -/
def storageLib : Lib := ⟨fun _ => .ok [], fun _ => .ok storageRegistry⟩

/-- A registry in which two groups carry the label `sig/x`. -/
def twinRegistry : SigYaml :=
  ⟨[⟨"first", "sig/x", "link1", [⟨["a.go"], [⟨"alice", "", "", ""⟩]⟩], []⟩,
    ⟨"second", "sig/x", "link2", [⟨["a.go"], [⟨"bob", "", "", ""⟩]⟩], []⟩]⟩

/-- A client whose calls succeed: the issue carries the label `sig/x` and the
pull request changes the file `a.go`. -/
def twinBot : robot :=
  ⟨⟨fun _ _ _ _ => none, fun _ _ _ _ => none, fun _ _ _ => .ok [⟨"sig/x"⟩],
    fun _ _ _ => .ok [⟨"a.go"⟩], fun _ _ _ _ => .ok ⟨"c2lnczo="⟩⟩⟩

/-- Decoders that yield `twinRegistry`. -/
def twinLib : Lib := ⟨fun _ => .ok [], fun _ => .ok twinRegistry⟩

/-- Decoders whose base64 step rejects the payload. -/
def corruptLib : Lib :=
  ⟨fun _ => .error "illegal base64 data at input byte 0", fun _ => .ok storageRegistry⟩

/-- A pull-request label event with the label `sig/storage`. -/
def storagePR : PullRequestEvent :=
  ⟨"update_label", "org", "repo", "bob", 7, ["sig/storage"]⟩

/-- An issue comment carrying the directive `/sig storage`. -/
def storageNote : NoteEvent :=
  ⟨true, false, "org", "repo", "I7", "bob", "/sig storage"⟩

/-- A pull-request label event with two labels of the prefix `sig/`. -/
def twoLabelPR : PullRequestEvent :=
  ⟨"update_label", "org", "repo", "bob", 7, ["sig/storage", "sig/net"]⟩

/-- A pull-request label event without a label of the prefix `sig/`. -/
def plainPR : PullRequestEvent :=
  ⟨"update_label", "org", "repo", "bob", 7, ["bug"]⟩

/-- A registry whose group lists the repository `repo` twice in one rule and
the contact `alice` in two rules. -/
def repeatRegistry : SigYaml :=
  ⟨[⟨"storage", "sig/storage", "https://example.org/storage", [],
      [⟨["repo", "repo"], [⟨"alice", "", "", ""⟩]⟩,
        ⟨["repo"], [⟨"alice", "Alice", "", ""⟩]⟩]⟩]⟩

/-- Decoders that yield `repeatRegistry`. -/
def repeatLib : Lib := ⟨fun _ => .ok [], fun _ => .ok repeatRegistry⟩

/-- A registry whose group `net` names two owners for `b.go`. -/
def netRegistry : SigYaml :=
  ⟨[⟨"net", "sig/net", "https://example.org/net",
      [⟨["b.go"], [⟨"dave", "", "", ""⟩, ⟨"erin", "", "", ""⟩]⟩], []⟩]⟩

/-- A client whose calls succeed: the issue carries the label `sig/net` and
the pull request changes the file `b.go`. -/
def netBot : robot :=
  ⟨⟨fun _ _ _ _ => none, fun _ _ _ _ => none, fun _ _ _ => .ok [⟨"sig/net"⟩],
    fun _ _ _ => .ok [⟨"b.go"⟩], fun _ _ _ _ => .ok ⟨"c2lnczo="⟩⟩⟩

/-- Decoders that yield `netRegistry`. -/
def netLib : Lib := ⟨fun _ => .ok [], fun _ => .ok netRegistry⟩

/-- A pull-request label event with the label `sig/net`. -/
def netPR : PullRequestEvent :=
  ⟨"update_label", "org", "repo", "bob", 7, ["sig/net"]⟩

/-- A pull-request label event with the labels `bug` and `sig/storage`. -/
def mixedPR : PullRequestEvent :=
  ⟨"update_label", "org", "repo", "bob", 7, ["bug", "sig/storage"]⟩

/-- A registry in which two groups carry the label `sig/x` and own the
repository `repo`. -/
def twinRepoRegistry : SigYaml :=
  ⟨[⟨"first", "sig/x", "link1", [], [⟨["repo"], [⟨"alice", "", "", ""⟩]⟩]⟩,
    ⟨"second", "sig/x", "link2", [], [⟨["repo"], [⟨"bob", "", "", ""⟩]⟩]⟩]⟩

/-- Decoders that yield `twinRepoRegistry`. -/
def twinRepoLib : Lib := ⟨fun _ => .ok [], fun _ => .ok twinRepoRegistry⟩

/-- An issue comment carrying the directive `/sig x`, by `carol` on `repo`. -/
def twinNote : NoteEvent :=
  ⟨true, false, "org", "repo", "I9", "carol", "/sig x"⟩

/-! ## Sets and maps -/

theorem StringSet.mem_insert1 (s : StringSet) (x h : String) :
    h ∈ StringSet.insert1 s x ↔ h ∈ s ∨ h = x := by
  unfold StringSet.insert1
  split
  · constructor
    · intro hm; exact Or.inl hm
    · rintro (hm | rfl)
      · exact hm
      · assumption
  · simp

theorem StringSet.nodup_insert1 (s : StringSet) (x : String) (hs : s.Nodup) :
    (StringSet.insert1 s x).Nodup := by
  unfold StringSet.insert1
  split
  · exact hs
  · rename_i hx
    rw [List.nodup_append]
    refine ⟨hs, List.nodup_singleton x, ?_⟩
    intro a ha hb
    simp at hb
    subst hb
    exact hx ha

theorem StringSet.mem_Insert (items : List String) (s : StringSet) (h : String) :
    h ∈ StringSet.Insert s items ↔ h ∈ s ∨ h ∈ items := by
  unfold StringSet.Insert
  induction items generalizing s with
  | nil => simp
  | cons x xs ih =>
    rw [List.foldl_cons, ih, StringSet.mem_insert1]
    simp only [List.mem_cons]
    tauto

theorem StringSet.nodup_Insert (items : List String) (s : StringSet) (hs : s.Nodup) :
    (StringSet.Insert s items).Nodup := by
  unfold StringSet.Insert
  induction items generalizing s with
  | nil => exact hs
  | cons x xs ih =>
    rw [List.foldl_cons]
    exact ih _ (StringSet.nodup_insert1 s x hs)

/-! ## File owners -/

/-- The handles a list of owners adds to a set. -/
theorem mem_ownerFold (owners : List Member) (first : StringSet) (h : String) :
    h ∈ owners.foldl (fun first o => StringSet.insert1 first o.GiteeID) first ↔
      h ∈ first ∨ ∃ o ∈ owners, o.GiteeID = h := by
  induction owners generalizing first with
  | nil => simp
  | cons o os ih =>
    rw [List.foldl_cons, ih, StringSet.mem_insert1]
    simp only [List.mem_cons, exists_eq_or_imp]
    constructor
    · rintro ((h1 | h2) | h3)
      · exact Or.inl h1
      · exact Or.inr (Or.inl h2.symm)
      · exact Or.inr (Or.inr h3)
    · rintro (h1 | h2 | h3)
      · exact Or.inl (Or.inl h1)
      · exact Or.inl (Or.inr h2.symm)
      · exact Or.inr h3

theorem nodup_ownerFold (owners : List Member) (first : StringSet) (hf : first.Nodup) :
    (owners.foldl (fun first o => StringSet.insert1 first o.GiteeID) first).Nodup := by
  induction owners generalizing first with
  | nil => exact hf
  | cons o os ih =>
    rw [List.foldl_cons]
    exact ih _ (StringSet.nodup_insert1 _ _ hf)

/-- The handles one file rule adds to a set, for the file `fileName`. -/
theorem mem_pathFold (fileName : String) (owners : List Member) (paths : List String)
    (first : StringSet) (h : String) :
    h ∈ paths.foldl
        (fun first ff =>
          if fileName = ff then
            owners.foldl (fun first o => StringSet.insert1 first o.GiteeID) first
          else first) first ↔
      h ∈ first ∨ (fileName ∈ paths ∧ ∃ o ∈ owners, o.GiteeID = h) := by
  induction paths generalizing first with
  | nil => simp
  | cons p ps ih =>
    rw [List.foldl_cons, ih]
    by_cases hp : fileName = p
    · subst hp
      rw [if_pos rfl, mem_ownerFold]
      simp only [List.mem_cons, true_or, true_and]
      generalize (∃ o ∈ owners, o.GiteeID = h) = B
      tauto
    · rw [if_neg hp]
      simp only [List.mem_cons, hp, false_or]

theorem nodup_pathFold (fileName : String) (owners : List Member) (paths : List String)
    (first : StringSet) (hf : first.Nodup) :
    (paths.foldl
        (fun first ff =>
          if fileName = ff then
            owners.foldl (fun first o => StringSet.insert1 first o.GiteeID) first
          else first) first).Nodup := by
  induction paths generalizing first with
  | nil => exact hf
  | cons p ps ih =>
    rw [List.foldl_cons]
    apply ih
    split
    · exact nodup_ownerFold _ _ hf
    · exact hf

theorem mem_ruleFold (fileName : String) (rules : List FileMember)
    (first : StringSet) (h : String) :
    h ∈ rules.foldl
        (fun first s =>
          s.File.foldl
            (fun first ff =>
              if fileName = ff then
                s.Owner.foldl (fun first o => StringSet.insert1 first o.GiteeID) first
              else first)
            first) first ↔
      h ∈ first ∨ ∃ r ∈ rules, fileName ∈ r.File ∧ ∃ o ∈ r.Owner, o.GiteeID = h := by
  induction rules generalizing first with
  | nil => simp
  | cons r rs ih =>
    rw [List.foldl_cons, ih, mem_pathFold]
    simp only [List.mem_cons, exists_eq_or_imp]
    rw [or_assoc]

theorem nodup_ruleFold (fileName : String) (rules : List FileMember)
    (first : StringSet) (hf : first.Nodup) :
    (rules.foldl
        (fun first s =>
          s.File.foldl
            (fun first ff =>
              if fileName = ff then
                s.Owner.foldl (fun first o => StringSet.insert1 first o.GiteeID) first
              else first)
            first) first).Nodup := by
  induction rules generalizing first with
  | nil => exact hf
  | cons r rs ih =>
    rw [List.foldl_cons]
    exact ih _ (nodup_pathFold _ _ _ _ hf)

/-- Membership in the set `first` of `getFileOwner`. -/
theorem mem_fileOwners (sig : Sig) (fileName h : String) :
    h ∈ fileOwners sig fileName ↔
      ∃ r ∈ sig.Files, fileName ∈ r.File ∧ ∃ o ∈ r.Owner, o.GiteeID = h := by
  unfold fileOwners
  rw [mem_ruleFold]
  simp

theorem nodup_fileOwners (sig : Sig) (fileName : String) :
    (fileOwners sig fileName).Nodup := by
  unfold fileOwners
  exact nodup_ruleFold _ _ _ List.nodup_nil

/-! ## Group selection -/

theorem selectSig_fold (label : String) (sigs : List Sig) (acc : Sig × String × String) :
    sigs.foldl
        (fun acc s => if label = s.SigLabel then (s, s.Name, s.SigLink) else acc) acc =
      match (sigs.filter (fun s => decide (label = s.SigLabel))).getLast? with
      | none => acc
      | some g => (g, g.Name, g.SigLink) := by
  induction sigs generalizing acc with
  | nil => simp
  | cons s rest ih =>
    rw [List.foldl_cons, ih]
    by_cases hs : label = s.SigLabel
    · rw [if_pos hs, List.filter_cons_of_pos (by simpa using hs)]
      cases hr : rest.filter (fun s => decide (label = s.SigLabel)) with
      | nil => simp
      | cons a as =>
        have hl : ∃ g, (a :: as).getLast? = some g :=
          ⟨_, List.getLast?_eq_getLast _ (List.cons_ne_nil a as)⟩
        obtain ⟨g, hg⟩ := hl
        rw [List.getLast?_cons_cons, hg]
    · rw [if_neg hs, List.filter_cons_of_neg (by simpa using hs)]

/-- The group `selectSig` returns is the last one carrying the label. -/
theorem selectSig_eq_last (label : String) (sigs : List Sig) (g : Sig)
    (hg : (sigs.filter (fun s => decide (label = s.SigLabel))).getLast? = some g) :
    selectSig label sigs = (g, g.Name, g.SigLink) := by
  unfold selectSig
  rw [selectSig_fold, hg]

theorem selectSig_none (label : String) (sigs : List Sig)
    (hg : ∀ s ∈ sigs, s.SigLabel ≠ label) :
    selectSig label sigs = (Sig.zero, "", "") := by
  unfold selectSig
  rw [selectSig_fold]
  have : sigs.filter (fun s => decide (label = s.SigLabel)) = [] := by
    rw [List.filter_eq_nil_iff]
    intro s hs
    simpa using fun h => hg s hs h.symm
  rw [this]
  rfl

/-! ## Registry loading -/

theorem getFileOwner_of_load (bot : robot) (lib : Lib) (reg : SigYaml)
    (hload : decodeSigsContent bot lib = .ok reg) (label fileName : String) :
    getFileOwner bot lib label fileName =
      .ok (fileOwners (selectSig label reg.Sigs).1 fileName,
        (selectSig label reg.Sigs).2.1, (selectSig label reg.Sigs).2.2) := by
  unfold getFileOwner
  rw [hload]

theorem getFileOwner_of_fail (bot : robot) (lib : Lib) (err : Error)
    (hload : decodeSigsContent bot lib = .error err) (label fileName : String) :
    getFileOwner bot lib label fileName = .error err := by
  unfold getFileOwner
  rw [hload]

/-- The loop over the changed files, once the registry loads. -/
theorem collectOwners_of_load (bot : robot) (lib : Lib) (reg : SigYaml)
    (hload : decodeSigsContent bot lib = .ok reg) (label : String)
    (changes : List PullRequestFiles) (owners : StringSet) (sigName : GoMap String) :
    collectOwners bot lib label changes owners sigName =
      .ok (changes.foldl
            (fun o c =>
              StringSet.Insert o (fileOwners (selectSig label reg.Sigs).1 c.Filename))
            owners,
          changes.foldl
            (fun m _ =>
              GoMap.set m (selectSig label reg.Sigs).2.1 (selectSig label reg.Sigs).2.2)
            sigName) := by
  induction changes generalizing owners sigName with
  | nil => rfl
  | cons c cs ih =>
    unfold collectOwners
    rw [getFileOwner_of_load bot lib reg hload]
    simp only [List.foldl_cons]
    exact ih _ _

theorem collectOwners_of_fail (bot : robot) (lib : Lib) (err : Error)
    (hload : decodeSigsContent bot lib = .error err) (label : String)
    (c : PullRequestFiles) (cs : List PullRequestFiles) (owners : StringSet)
    (sigName : GoMap String) :
    collectOwners bot lib label (c :: cs) owners sigName = .error err := by
  unfold collectOwners
  rw [getFileOwner_of_fail bot lib err hload]

theorem mem_unionFold (sig : Sig) (changes : List PullRequestFiles) (owners : StringSet)
    (h : String) :
    h ∈ changes.foldl (fun o c => StringSet.Insert o (fileOwners sig c.Filename)) owners ↔
      h ∈ owners ∨ ∃ c ∈ changes, h ∈ fileOwners sig c.Filename := by
  induction changes generalizing owners with
  | nil => simp
  | cons c cs ih =>
    rw [List.foldl_cons, ih, StringSet.mem_Insert]
    simp only [List.mem_cons, exists_eq_or_imp]
    rw [or_assoc]

theorem nodup_unionFold (sig : Sig) (changes : List PullRequestFiles) (owners : StringSet)
    (ho : owners.Nodup) :
    (changes.foldl (fun o c => StringSet.Insert o (fileOwners sig c.Filename)) owners).Nodup := by
  induction changes generalizing owners with
  | nil => exact ho
  | cons c cs ih =>
    rw [List.foldl_cons]
    exact ih _ (StringSet.nodup_Insert _ _ ho)

/-- C1. When exactly one group `g` of the registry carries the label,
`getFileOwner` returns for every file name the handles of the owners of those
file rules of `g` that list a path equal to the file name, each handle once
(with the name and link of `g`), and the owner set that
`genSpecialWelcomeMessage` builds over a list of changed files holds exactly
the handles returned for one of the changed files, each once. -/
theorem getFileOwner_single_group (bot : robot) (lib : Lib) (reg : SigYaml)
    (label : String) (g : Sig)
    (hload : decodeSigsContent bot lib = .ok reg)
    (hone : reg.Sigs.filter (fun s => decide (label = s.SigLabel)) = [g]) :
    (∀ f : String, ∃ first : StringSet,
        getFileOwner bot lib label f = .ok (first, g.Name, g.SigLink) ∧
        first.Nodup ∧
        ∀ h : String, h ∈ first ↔
          ∃ r ∈ g.Files, f ∈ r.File ∧ ∃ o ∈ r.Owner, o.GiteeID = h) ∧
    (∀ changes : List PullRequestFiles, ∃ (owners : StringSet) (sigName : GoMap String),
        collectOwners bot lib label changes [] [] = .ok (owners, sigName) ∧
        owners.Nodup ∧
        ∀ h : String, h ∈ owners ↔
          ∃ c ∈ changes, ∃ first : StringSet,
            getFileOwner bot lib label c.Filename = .ok (first, g.Name, g.SigLink) ∧
            h ∈ first) := by
  have hsel : selectSig label reg.Sigs = (g, g.Name, g.SigLink) :=
    selectSig_eq_last label reg.Sigs g (by rw [hone]; rfl)
  have hget : ∀ f, getFileOwner bot lib label f = .ok (fileOwners g f, g.Name, g.SigLink) := by
    intro f
    rw [getFileOwner_of_load bot lib reg hload, hsel]
  refine ⟨?_, ?_⟩
  · intro f
    exact ⟨fileOwners g f, hget f, nodup_fileOwners g f, fun h => mem_fileOwners g f h⟩
  · intro changes
    refine ⟨_, _, collectOwners_of_load bot lib reg hload label changes [] [], ?_, ?_⟩
    · exact nodup_unionFold _ _ _ List.nodup_nil
    · intro h
      rw [mem_unionFold, hsel]
      simp only [List.not_mem_nil, false_or]
      constructor
      · rintro ⟨c, hc, hm⟩
        exact ⟨c, hc, fileOwners g c.Filename, hget c.Filename, hm⟩
      · rintro ⟨c, hc, first, hf, hm⟩
        rw [hget c.Filename] at hf
        injection hf with hf
        injection hf with hf _
        subst hf
        exact ⟨c, hc, hm⟩

/-- C1, the example of the specification: label `sig/storage` and changed file
`a.go` give the set with the one handle `alice`. -/
theorem getFileOwner_single_group_witness :
    getFileOwner storageBot storageLib "sig/storage" "a.go" =
        .ok (["alice"], "storage", "https://example.org/storage") ∧
      ∃ (owners : StringSet) (sigName : GoMap String),
        collectOwners storageBot storageLib "sig/storage" [⟨"a.go"⟩] [] [] =
          .ok (owners, sigName) ∧
        ∀ h : String, h ∈ owners ↔ h = "alice" := by
  have key := getFileOwner_single_group storageBot storageLib storageRegistry
    "sig/storage" _ rfl rfl
  refine ⟨rfl, ?_⟩
  obtain ⟨owners, sigName, hc, -, hm⟩ := key.2 [⟨"a.go"⟩]
  refine ⟨owners, sigName, hc, ?_⟩
  intro h
  rw [hm]
  constructor
  · rintro ⟨c, hc, first, hf, hh⟩
    simp only [List.mem_singleton] at hc
    subst hc
    have hf2 : getFileOwner storageBot storageLib "sig/storage" "a.go" =
        .ok (["alice"], "storage", "https://example.org/storage") := rfl
    rw [hf2] at hf
    injection hf with hf
    injection hf with hf _
    subst hf
    simpa using hh
  · rintro rfl
    exact ⟨⟨"a.go"⟩, by simp, ["alice"], rfl, by simp⟩

/-- C5 (as stated, refuted). In `twinRegistry` the groups `first` and `second`
carry the label `sig/x`, in this order; `getFileOwner` resolves the owners in
the group `second` and returns its name and link, not those of `first`. -/
theorem getFileOwner_first_group_refuted :
    decodeSigsContent twinBot twinLib = .ok twinRegistry ∧
      (twinRegistry.Sigs.filter (fun s => decide ("sig/x" = s.SigLabel))).map Sig.Name =
        ["first", "second"] ∧
      getFileOwner twinBot twinLib "sig/x" "a.go" = .ok (["bob"], "second", "link2") ∧
      ¬ (∃ g, twinRegistry.Sigs.head? = some g ∧
          getFileOwner twinBot twinLib "sig/x" "a.go" =
            .ok (fileOwners g "a.go", g.Name, g.SigLink)) := by
  refine ⟨rfl, by decide, rfl, ?_⟩
  rintro ⟨g, hg, hf⟩
  have hg2 : g = ⟨"first", "sig/x", "link1", [⟨["a.go"], [⟨"alice", "", "", ""⟩]⟩], []⟩ := by
    have : twinRegistry.Sigs.head? =
        some ⟨"first", "sig/x", "link1", [⟨["a.go"], [⟨"alice", "", "", ""⟩]⟩], []⟩ := rfl
    rw [this] at hg
    exact (Option.some.inj hg).symm
  subst hg2
  have hf2 : getFileOwner twinBot twinLib "sig/x" "a.go" =
      .ok (["bob"], "second", "link2") := rfl
  rw [hf2] at hf
  injection hf with hf
  have := congrArg (fun p => p.2.1) hf
  revert this
  decide

/-- C5 (amended). When one or more groups of the registry carry the label,
the group `getFileOwner` uses to resolve the file owners, and whose name and
link it returns, is the last such group in registry order. -/
theorem getFileOwner_last_group (bot : robot) (lib : Lib) (reg : SigYaml)
    (label : String) (g : Sig)
    (hload : decodeSigsContent bot lib = .ok reg)
    (hlast : (reg.Sigs.filter (fun s => decide (label = s.SigLabel))).getLast? = some g)
    (f : String) :
    getFileOwner bot lib label f = .ok (fileOwners g f, g.Name, g.SigLink) := by
  rw [getFileOwner_of_load bot lib reg hload, selectSig_eq_last label reg.Sigs g hlast]

/-- C5 (amended), on `twinRegistry`: the last group with the label `sig/x` is
`second`, and `getFileOwner` resolves `a.go` in it. -/
theorem getFileOwner_last_group_witness :
    decodeSigsContent twinBot twinLib = .ok twinRegistry ∧
      (twinRegistry.Sigs.filter (fun s => decide ("sig/x" = s.SigLabel))).getLast? =
        some ⟨"second", "sig/x", "link2", [⟨["a.go"], [⟨"bob", "", "", ""⟩]⟩], []⟩ ∧
      getFileOwner twinBot twinLib "sig/x" "a.go" =
        .ok (fileOwners ⟨"second", "sig/x", "link2", [⟨["a.go"], [⟨"bob", "", "", ""⟩]⟩], []⟩
              "a.go", "second", "link2") :=
  ⟨rfl, rfl, getFileOwner_last_group twinBot twinLib twinRegistry "sig/x" _ rfl rfl "a.go"⟩

/-! ## Failure of the registry load -/

theorem mem_GetPRLabelSet (e : PullRequestEvent) (l : String) :
    l ∈ e.GetPRLabelSet ↔ l ∈ e.labels := by
  unfold PullRequestEvent.GetPRLabelSet
  rw [StringSet.mem_Insert]
  simp

theorem nodup_GetPRLabelSet (e : PullRequestEvent) : e.GetPRLabelSet.Nodup :=
  StringSet.nodup_Insert _ _ List.nodup_nil

theorem genSpecialWelcomeMessage_of_fail (bot : robot) (lib : Lib) (rt : Runtime)
    (err : Error) (hload : decodeSigsContent bot lib = .error err)
    (org repo author label : String) (number : Int)
    (c : PullRequestFiles) (cs : List PullRequestFiles)
    (hch : bot.cli.GetPullRequestChanges org repo number = .ok (c :: cs)) :
    genSpecialWelcomeMessage bot lib rt org repo author label number = .error err := by
  unfold genSpecialWelcomeMessage
  rw [hch]
  simp only
  rw [collectOwners_of_fail bot lib err hload]

theorem prLabelLoop_of_fail (bot : robot) (lib : Lib) (rt : Runtime)
    (err : Error) (hload : decodeSigsContent bot lib = .error err)
    (e : PullRequestEvent) (c : PullRequestFiles) (cs : List PullRequestFiles)
    (hch : bot.cli.GetPullRequestChanges e.org e.repo e.number = .ok (c :: cs))
    (ls : List String) (hl : ∃ l ∈ ls, HasPrefix l "sig/" = true) :
    prLabelLoop bot lib rt e ls [] = .error err := by
  induction ls with
  | nil => simp at hl
  | cons l ls ih =>
    unfold prLabelLoop
    simp only [List.length_nil, gt_iff_lt, lt_self_iff_false, if_false]
    by_cases hp : HasPrefix l "sig/" = true
    · rw [if_pos hp, genSpecialWelcomeMessage_of_fail bot lib rt err hload _ _ _ _ _ c cs hch]
    · rw [if_neg hp]
      apply ih
      obtain ⟨l0, hl0, hp0⟩ := hl
      rcases List.mem_cons.mp hl0 with h | h
      · subst h; exact absurd hp0 hp
      · exact ⟨l0, h, hp0⟩

theorem noteLabelLoop_of_fail (bot : robot) (lib : Lib)
    (err : Error) (hload : decodeSigsContent bot lib = .error err)
    (ls : List Label) (hl : ∃ l ∈ ls, HasPrefix l.Name "sig/" = true) :
    noteLabelLoop bot lib ls [] [] = .error err := by
  induction ls with
  | nil => simp at hl
  | cons l ls ih =>
    unfold noteLabelLoop
    simp only [List.length_nil, gt_iff_lt, lt_self_iff_false, if_false]
    by_cases hp : HasPrefix l.Name "sig/" = true
    · rw [if_pos hp, hload]
    · rw [if_neg hp]
      apply ih
      obtain ⟨l0, hl0, hp0⟩ := hl
      rcases List.mem_cons.mp hl0 with h | h
      · subst h; exact absurd hp0 hp
      · exact ⟨l0, h, hp0⟩

/-- C3. If the content fetch fails, or the base64 decoding fails, or the YAML
parse fails, with error `err`, then `decodeSigsContent` returns `err`; every
pull-request label event that reaches the load (a label with the prefix
`sig/`, one or more changed files) and every issue directive comment that
reaches it (an issue label with the prefix `sig/`) makes its handler return
`err` without any call of `CreatePRComment` or `CreateIssueComment`. -/
theorem registry_failure_aborts (bot : robot) (lib : Lib) (rt : Runtime) (err : Error)
    (hfail :
      bot.cli.GetPathContent "new-op" "community" "test2.yaml" "master" = .error err ∨
      (∃ c, bot.cli.GetPathContent "new-op" "community" "test2.yaml" "master" = .ok c ∧
        lib.DecodeString c.Content = .error err) ∨
      (∃ c b, bot.cli.GetPathContent "new-op" "community" "test2.yaml" "master" = .ok c ∧
        lib.DecodeString c.Content = .ok b ∧ lib.Unmarshal b = .error err)) :
    decodeSigsContent bot lib = .error err ∧
    (∀ e : PullRequestEvent,
      e.action = PRActionUpdatedLabel →
      (∃ l ∈ e.labels, HasPrefix l "sig/" = true) →
      (∃ c cs, bot.cli.GetPullRequestChanges e.org e.repo e.number = .ok (c :: cs)) →
      handlePREvent bot lib rt e = ⟨some err, []⟩) ∧
    (∀ e : NoteEvent,
      e.IsCreatingCommentEvent = true → e.IsPullRequest = false →
      sigLabelRegex_MatchString e.body = true →
      (∃ labels, bot.cli.GetIssueLabels e.org e.repo e.number = .ok labels ∧
        ∃ l ∈ labels, HasPrefix l.Name "sig/" = true) →
      handleNoteEvent bot lib rt e = ⟨some err, []⟩) := by
  have hload : decodeSigsContent bot lib = .error err := by
    unfold decodeSigsContent
    rcases hfail with h | ⟨c, h1, h2⟩ | ⟨c, b, h1, h2, h3⟩
    · rw [h]
    · rw [h1]; simp only; rw [h2]
    · rw [h1]; simp only; rw [h2]; simp only; rw [h3]
  refine ⟨hload, ?_, ?_⟩
  · rintro e hact ⟨l, hl, hp⟩ ⟨c, cs, hch⟩
    unfold handlePREvent
    rw [if_neg (not_not.mpr hact)]
    have hex : ∃ l ∈ rt.labelSet.enum e.GetPRLabelSet, HasPrefix l "sig/" = true :=
      ⟨l, (rt.labelSet.perm _).mem_iff.mpr ((mem_GetPRLabelSet e l).mpr hl), hp⟩
    rw [prLabelLoop_of_fail bot lib rt err hload e c cs hch _ hex]
  · rintro e hcr hpr hre ⟨labels, hlab, hl⟩
    unfold handleNoteEvent
    simp only [hcr, hpr, hre, Bool.not_true, Bool.false_eq_true, if_false]
    rw [hlab]
    simp only
    rw [noteLabelLoop_of_fail bot lib err hload labels hl]

/-- C3, with a payload whose transport encoding is corrupted: both handlers
return the decoder's error and post nothing. -/
theorem registry_failure_aborts_witness :
    decodeSigsContent storageBot corruptLib = .error "illegal base64 data at input byte 0" ∧
      handlePREvent storageBot corruptLib Runtime.inserted storagePR =
        ⟨some "illegal base64 data at input byte 0", []⟩ ∧
      handleNoteEvent storageBot corruptLib Runtime.inserted storageNote =
        ⟨some "illegal base64 data at input byte 0", []⟩ :=
  have key := registry_failure_aborts storageBot corruptLib Runtime.inserted
    "illegal base64 data at input byte 0" (Or.inr (Or.inl ⟨⟨"c2lnczo="⟩, rfl, rfl⟩))
  ⟨key.1,
    key.2.1 storagePR rfl ⟨"sig/storage", by decide, by decide⟩ ⟨⟨"a.go"⟩, [], rfl⟩,
    key.2.2 storageNote rfl rfl (by decide) ⟨[⟨"sig/storage"⟩], rfl, ⟨"sig/storage"⟩, by decide, by decide⟩⟩

/-! ## Texts -/

theorem Contains.self (s : String) : Contains s s := List.infix_refl _

theorem Contains.inner (p m q s : String) (h : Contains m s) :
    Contains (p ++ (m ++ q)) s := by
  unfold Contains at *
  obtain ⟨u, v, huv⟩ := h
  refine ⟨p.data ++ u, v ++ q.data, ?_⟩
  simp only [String.data_append, ← huv, List.append_assoc]

theorem Contains.head (m q s : String) (h : Contains m s) : Contains (m ++ q) s := by
  unfold Contains at *
  obtain ⟨u, v, huv⟩ := h
  refine ⟨u, v ++ q.data, ?_⟩
  simp only [String.data_append, ← huv, List.append_assoc]

theorem Contains.tail (p m s : String) (h : Contains m s) : Contains (p ++ m) s := by
  unfold Contains at *
  obtain ⟨u, v, huv⟩ := h
  refine ⟨p.data ++ u, v, ?_⟩
  simp only [String.data_append, ← huv, List.append_assoc]

/-- Every element of a joined list follows an `@`, when the separator ends in
`@` and the joined text follows an `@`. -/
theorem contains_at_of_mem (s0 h : String) (l : List String) (hl : h ∈ l) :
    Contains ("@" ++ Join l (s0 ++ "@")) ("@" ++ h) := by
  induction l with
  | nil => simp at hl
  | cons a rest ih =>
    cases rest with
    | nil =>
      simp only [List.mem_singleton] at hl
      subst hl
      exact Contains.self _
    | cons b rest =>
      have hj : "@" ++ Join (a :: b :: rest) (s0 ++ "@") =
          ("@" ++ a) ++ (s0 ++ ("@" ++ Join (b :: rest) (s0 ++ "@"))) := by
        apply String.ext
        simp only [Join, String.data_append, List.append_assoc]
      rw [hj]
      rcases List.mem_cons.mp hl with h1 | h1
      · subst h1
        exact Contains.head _ _ _ (Contains.self _)
      · exact Contains.tail _ _ _ (Contains.tail _ _ _ (ih h1))

/-- The issue template filled with five operands. -/
theorem Sprintf_forIssueReply (a b c d e : String) :
    Sprintf forIssueReply [a, b, c, d, e] =
      "Hi ***" ++ (a ++ ("***" ++
        (", \nif you want to get quick review about your issue, please contact the owner in first: " ++
          ("@" ++ (b ++
            (" ,\nand then any of the maintainers: @" ++ (c ++
              (" ,\nand then any of the committers: @" ++ (d ++
                (" ,\nif you have any question, please contact the SIG:" ++ (e ++ "."))))))))))) := by
  rfl

/-- The pull-request template filled with four operands: the fifth verb has
no operand. -/
theorem Sprintf_forPRReply (a b c d : String) :
    Sprintf forPRReply [a, b, c, d] =
      "Hi ***" ++ (a ++ ("***" ++
        (", \nif you want to get quick review about your pull request, please contact the owner in first: @" ++
          (b ++
            (" ,\nand then any of the maintainers: " ++ ("@" ++ (c ++
              (" ,\nand then any of the committers: @" ++ (d ++
                " ,\nif you have any question, please contact the SIG:%!s(MISSING)."))))))))) := by
  rfl

/-- The link template filled with a name and a link. -/
theorem Sprintf_sigLink (k v : String) :
    Sprintf sigLink [k, v] = "[" ++ (k ++ ("](" ++ (v ++ ")"))) := by
  rfl

/-- The issue reply greets the author. -/
theorem issueReply_greets (a : String) (owner : List String) :
    Contains (issueReply a owner) ("Hi ***" ++ a ++ "***") := by
  unfold issueReply
  rw [Sprintf_forIssueReply, ← String.append_assoc, ← String.append_assoc]
  exact Contains.head _ _ _ (Contains.self _)

/-- The issue reply mentions every handle of its contact list. -/
theorem issueReply_mentions (a h : String) (owner : List String)
    (hh : h ∈ issueContacts owner) : Contains (issueReply a owner) ("@" ++ h) := by
  unfold issueReply
  rw [Sprintf_forIssueReply]
  refine Contains.tail _ _ _ (Contains.tail _ _ _ (Contains.tail _ _ _ (Contains.tail _ _ _ ?_)))
  rw [← String.append_assoc]
  exact Contains.head _ _ _ (contains_at_of_mem " , " h _ hh)

/-- The pull-request reply mentions every handle of its contact list. -/
theorem prReply_mentions (rt : Runtime) (a h : String) (owners : StringSet)
    (sigName : GoMap String) (hh : h ∈ withFallback owners) :
    Contains (prReply rt a owners sigName) ("@" ++ h) := by
  unfold prReply
  rw [Sprintf_forPRReply]
  refine Contains.tail _ _ _ (Contains.tail _ _ _ (Contains.tail _ _ _ (Contains.tail _ _ _
    (Contains.tail _ _ _ (Contains.tail _ _ _ ?_)))))
  rw [← String.append_assoc]
  refine Contains.head _ _ _ (contains_at_of_mem " ," h _ ?_)
  exact (rt.owners.perm _).mem_iff.mpr hh

/-! ## The replies of the two handlers -/

theorem handleNoteEvent_posts (bot : robot) (lib : Lib) (rt : Runtime) (e : NoteEvent)
    (labels : List Label) (sigNames : GoMap String) (repositories : GoMap (List RepoMember))
    (hcr : e.IsCreatingCommentEvent = true) (hpr : e.IsPullRequest = false)
    (hre : sigLabelRegex_MatchString e.body = true)
    (hlab : bot.cli.GetIssueLabels e.org e.repo e.number = .ok labels)
    (hloop : noteLabelLoop bot lib labels [] [] = .ok (sigNames, repositories)) :
    handleNoteEvent bot lib rt e =
      ⟨bot.cli.CreateIssueComment e.org e.repo e.number
          (issueReply e.author (repoOwners rt.repositories e.repo repositories)),
        [Posted.issueComment e.org e.repo e.number
          (issueReply e.author (repoOwners rt.repositories e.repo repositories))]⟩ := by
  unfold handleNoteEvent
  simp only [hcr, hpr, hre, Bool.not_true, Bool.false_eq_true, if_false]
  rw [hlab]
  simp only
  rw [hloop]

theorem genSpecialWelcomeMessage_ok (bot : robot) (lib : Lib) (rt : Runtime)
    (org repo author label : String) (number : Int) (changes : List PullRequestFiles)
    (owners : StringSet) (sigName : GoMap String)
    (hch : bot.cli.GetPullRequestChanges org repo number = .ok changes)
    (hco : collectOwners bot lib label changes [] [] = .ok (owners, sigName)) :
    genSpecialWelcomeMessage bot lib rt org repo author label number =
      .ok (prReply rt author owners sigName) := by
  unfold genSpecialWelcomeMessage
  rw [hch]
  simp only
  rw [hco]

theorem issueContacts_of_ne (owner : List String) (hne : owner ≠ []) :
    issueContacts owner = owner := by
  unfold issueContacts
  rw [if_neg]
  intro h
  exact hne (List.length_eq_zero.mp h)

theorem withFallback_of_ne (owners : StringSet) (hne : owners ≠ []) :
    withFallback owners = owners := by
  unfold withFallback
  rw [if_neg]
  intro h
  exact hne (List.length_eq_zero.mp h)

/-- C9. When a qualifying issue comment resolves a non-empty contact list, the
comment `handleNoteEvent` posts is the issue template filled with the author
and the handles joined by ` , @`; it contains `Hi ***author***` and, for every
resolved handle `h`, the text `@h`. -/
theorem issue_reply_names_author_and_contacts (bot : robot) (lib : Lib) (rt : Runtime)
    (e : NoteEvent) (labels : List Label) (sigNames : GoMap String)
    (repositories : GoMap (List RepoMember))
    (hcr : e.IsCreatingCommentEvent = true) (hpr : e.IsPullRequest = false)
    (hre : sigLabelRegex_MatchString e.body = true)
    (hlab : bot.cli.GetIssueLabels e.org e.repo e.number = .ok labels)
    (hloop : noteLabelLoop bot lib labels [] [] = .ok (sigNames, repositories))
    (hne : repoOwners rt.repositories e.repo repositories ≠ []) :
    ∃ msg : String,
      (handleNoteEvent bot lib rt e).posted =
        [Posted.issueComment e.org e.repo e.number msg] ∧
      msg = Sprintf forIssueReply
        [e.author, Join (repoOwners rt.repositories e.repo repositories) " , @", "", "", ""] ∧
      Contains msg ("Hi ***" ++ e.author ++ "***") ∧
      ∀ h ∈ repoOwners rt.repositories e.repo repositories, Contains msg ("@" ++ h) := by
  refine ⟨issueReply e.author (repoOwners rt.repositories e.repo repositories), ?_, ?_,
    issueReply_greets _ _, ?_⟩
  · rw [handleNoteEvent_posts bot lib rt e labels sigNames repositories hcr hpr hre hlab hloop]
  · unfold issueReply
    rw [issueContacts_of_ne _ hne]
  · intro h hh
    apply issueReply_mentions
    rw [issueContacts_of_ne _ hne]
    exact hh

/-- C9, the example of the specification: for the author `bob` and the one
contact `alice` the posted text contains `Hi ***bob***` and `@alice`. -/
theorem issue_reply_names_author_and_contacts_witness :
    repoOwners Runtime.inserted.repositories storageNote.repo
        [("storage", [⟨["repo"], [⟨"alice", "", "", ""⟩]⟩])] = ["alice"] ∧
      ∃ msg : String,
        (handleNoteEvent storageBot storageLib Runtime.inserted storageNote).posted =
          [Posted.issueComment "org" "repo" "I7" msg] ∧
        Contains msg "Hi ***bob***" ∧ Contains msg "@alice" := by
  obtain ⟨msg, hp, -, hg, hm⟩ :=
    issue_reply_names_author_and_contacts storageBot storageLib Runtime.inserted storageNote
      [⟨"sig/storage"⟩] [("storage", "https://example.org/storage")]
      [("storage", [⟨["repo"], [⟨"alice", "", "", ""⟩]⟩])] rfl rfl (by decide) rfl rfl
      (by decide)
  exact ⟨by decide, msg, hp, hg, hm "alice" (by decide)⟩

/-! ## The fallback contacts -/

theorem enterSigs_none (l : String) (sigs : List Sig)
    (acc : GoMap String × GoMap (List RepoMember))
    (hno : ∀ s ∈ sigs, s.SigLabel ≠ l) : enterSigs l sigs acc = acc := by
  unfold enterSigs
  induction sigs generalizing acc with
  | nil => rfl
  | cons s rest ih =>
    rw [List.foldl_cons, if_neg (fun h => hno s (List.mem_cons_self s rest) h.symm)]
    exact ih acc (fun t ht => hno t (List.mem_cons_of_mem s ht))

theorem noteLabelLoop_none (bot : robot) (lib : Lib) (reg : SigYaml)
    (hload : decodeSigsContent bot lib = .ok reg) (labels : List Label)
    (hno : ∀ l ∈ labels, ∀ s ∈ reg.Sigs, s.SigLabel ≠ l.Name) :
    noteLabelLoop bot lib labels [] [] = .ok ([], []) := by
  induction labels with
  | nil => rfl
  | cons l ls ih =>
    unfold noteLabelLoop
    simp only [List.length_nil, gt_iff_lt, lt_self_iff_false, if_false]
    have ih2 := ih (fun t ht => hno t (List.mem_cons_of_mem l ht))
    by_cases hp : HasPrefix l.Name "sig/" = true
    · rw [if_pos hp, hload]
      simp only
      rw [enterSigs_none l.Name reg.Sigs _ (hno l (List.mem_cons_self l ls))]
      exact ih2
    · rw [if_neg hp]
      exact ih2

theorem repoOwners_nil (ord : Order) (repo : String) : repoOwners ord repo [] = [] := by
  unfold repoOwners
  rw [(ord.perm ([] : GoMap (List RepoMember))).eq_nil]
  rfl

theorem unionFold_zero (changes : List PullRequestFiles) :
    changes.foldl (fun o c => StringSet.Insert o (fileOwners Sig.zero c.Filename)) [] = [] := by
  induction changes with
  | nil => rfl
  | cons c cs ih =>
    rw [List.foldl_cons]
    exact ih

/-- C2. In a pull-request reply the contact list `cs` is a listing of the
default handles `xiangxinyong` and `zhangxubo` when no contact was resolved,
and then the text contains `@xiangxinyong` and `@zhangxubo`; it is a listing
of the resolved contacts alone when there is one or more.  The same holds for
the issue reply.  A label that matches no group of the registry resolves no
file owner and no repository owner. -/
theorem default_contacts_when_none_resolved (bot : robot) (lib : Lib) (rt : Runtime) :
    (∀ (org repo author label : String) (number : Int) (changes : List PullRequestFiles)
        (owners : StringSet) (sigName : GoMap String),
      bot.cli.GetPullRequestChanges org repo number = .ok changes →
      collectOwners bot lib label changes [] [] = .ok (owners, sigName) →
      ∃ (msg : String) (cs : List String),
        genSpecialWelcomeMessage bot lib rt org repo author label number = .ok msg ∧
        msg = Sprintf forPRReply
          [author, Join (sigsLinks rt.sigName sigName) "", Join cs " ,@", ""] ∧
        (owners = [] →
          cs.Perm ["xiangxinyong", "zhangxubo"] ∧
          Contains msg "@xiangxinyong" ∧ Contains msg "@zhangxubo") ∧
        (owners ≠ [] → cs.Perm owners)) ∧
    (∀ (e : NoteEvent) (labels : List Label) (sigNames : GoMap String)
        (repositories : GoMap (List RepoMember)),
      e.IsCreatingCommentEvent = true → e.IsPullRequest = false →
      sigLabelRegex_MatchString e.body = true →
      bot.cli.GetIssueLabels e.org e.repo e.number = .ok labels →
      noteLabelLoop bot lib labels [] [] = .ok (sigNames, repositories) →
      ∃ (msg : String) (cs : List String),
        (handleNoteEvent bot lib rt e).posted =
          [Posted.issueComment e.org e.repo e.number msg] ∧
        msg = Sprintf forIssueReply [e.author, Join cs " , @", "", "", ""] ∧
        (repoOwners rt.repositories e.repo repositories = [] →
          cs = ["xiangxinyong", "zhangxubo"] ∧
          Contains msg "@xiangxinyong" ∧ Contains msg "@zhangxubo") ∧
        (repoOwners rt.repositories e.repo repositories ≠ [] →
          cs = repoOwners rt.repositories e.repo repositories)) ∧
    (∀ (reg : SigYaml) (label : String),
      decodeSigsContent bot lib = .ok reg →
      (∀ s ∈ reg.Sigs, s.SigLabel ≠ label) →
      (∀ f : String, getFileOwner bot lib label f = .ok ([], "", "")) ∧
      (∀ changes : List PullRequestFiles, ∃ sigName : GoMap String,
        collectOwners bot lib label changes [] [] = .ok ([], sigName))) ∧
    (∀ (reg : SigYaml) (labels : List Label),
      decodeSigsContent bot lib = .ok reg →
      (∀ l ∈ labels, ∀ s ∈ reg.Sigs, s.SigLabel ≠ l.Name) →
      noteLabelLoop bot lib labels [] [] = .ok ([], []) ∧
      ∀ repo : String, repoOwners rt.repositories repo [] = []) := by
  refine ⟨?_, ?_, ?_, ?_⟩
  · intro org repo author label number changes owners sigName hch hco
    refine ⟨prReply rt author owners sigName,
      rt.owners.enum (firstToConnect (withFallback owners)),
      genSpecialWelcomeMessage_ok bot lib rt org repo author label number changes owners
        sigName hch hco, rfl, ?_, ?_⟩
    · intro hnil
      subst hnil
      refine ⟨rt.owners.perm _, ?_, ?_⟩
      · exact prReply_mentions rt author "xiangxinyong" [] sigName (by decide)
      · exact prReply_mentions rt author "zhangxubo" [] sigName (by decide)
    · intro hne
      rw [withFallback_of_ne owners hne]
      exact rt.owners.perm _
  · intro e labels sigNames repositories hcr hpr hre hlab hloop
    refine ⟨issueReply e.author (repoOwners rt.repositories e.repo repositories),
      issueContacts (repoOwners rt.repositories e.repo repositories), ?_, rfl, ?_, ?_⟩
    · rw [handleNoteEvent_posts bot lib rt e labels sigNames repositories hcr hpr hre hlab hloop]
    · intro hnil
      rw [hnil]
      refine ⟨rfl, ?_, ?_⟩
      · exact issueReply_mentions e.author "xiangxinyong" [] (by decide)
      · exact issueReply_mentions e.author "zhangxubo" [] (by decide)
    · intro hne
      exact issueContacts_of_ne _ hne
  · intro reg label hload hno
    have hsel := selectSig_none label reg.Sigs hno
    refine ⟨?_, ?_⟩
    · intro f
      rw [getFileOwner_of_load bot lib reg hload, hsel]
      rfl
    · intro changes
      refine ⟨changes.foldl (fun m _ => GoMap.set m "" "") [], ?_⟩
      rw [collectOwners_of_load bot lib reg hload, hsel]
      simp only
      rw [unionFold_zero]
  · intro reg labels hload hno
    exact ⟨noteLabelLoop_none bot lib reg hload labels hno, fun repo => repoOwners_nil _ repo⟩

/-- C2, on a pull request whose label `sig/none` matches no group of the
registry: the reply mentions the two default handles. -/
theorem default_contacts_when_none_resolved_witness :
    collectOwners storageBot storageLib "sig/none" [⟨"a.go"⟩] [] [] = .ok ([], [("", "")]) ∧
      ∃ msg : String,
        genSpecialWelcomeMessage storageBot storageLib Runtime.inserted
          "org" "repo" "bob" "sig/none" 7 = .ok msg ∧
        Contains msg "@xiangxinyong" ∧ Contains msg "@zhangxubo" := by
  obtain ⟨msg, cs, hm, -, hd, -⟩ :=
    (default_contacts_when_none_resolved storageBot storageLib Runtime.inserted).1
      "org" "repo" "bob" "sig/none" 7 [⟨"a.go"⟩] [] [("", "")] rfl rfl
  exact ⟨rfl, msg, hm, (hd rfl).2⟩

/-! ## The posted texts on concrete events -/

/-- C4. On a label event with the labels `sig/storage` and `sig/net`, one
label (`sig/storage`) is resolved, and the text passed to `CreatePRComment` is
the message of `genSpecialWelcomeMessage` between square brackets, not the
message itself. -/
theorem handlePREvent_posts_bracketed_message :
    genSpecialWelcomeMessage storageBot storageLib Runtime.inserted
        "org" "repo" "bob" "sig/storage" 7 =
      .ok "Hi ***bob***, \nif you want to get quick review about your pull request, please contact the owner in first: @[storage](https://example.org/storage) ,\nand then any of the maintainers: @alice ,\nand then any of the committers: @ ,\nif you have any question, please contact the SIG:%!s(MISSING)." ∧
    handlePREvent storageBot storageLib Runtime.inserted twoLabelPR =
      ⟨none, [Posted.prComment "org" "repo" 7
        "[Hi ***bob***, \nif you want to get quick review about your pull request, please contact the owner in first: @[storage](https://example.org/storage) ,\nand then any of the maintainers: @alice ,\nand then any of the committers: @ ,\nif you have any question, please contact the SIG:%!s(MISSING).]"]⟩ := by
  constructor <;> rfl

/-- C6. On a label event whose labels have no prefix `sig/`, `handlePREvent`
calls `CreatePRComment` with the text `[]`. -/
theorem handlePREvent_posts_on_unqualified_labels :
    (plainPR.labels.filter (fun l => HasPrefix l "sig/")) = [] ∧
    handlePREvent storageBot storageLib Runtime.inserted plainPR =
      ⟨none, [Posted.prComment "org" "repo" 7 "[]"]⟩ := by
  constructor <;> rfl

/-- C7. With the repository listed twice in a rule and the contact in two
matching rules, the contact list of the issue reply holds the handle `alice`
three times. -/
theorem handleNoteEvent_repeats_handles :
    noteLabelLoop storageBot repeatLib [⟨"sig/storage"⟩] [] [] =
      .ok ([("storage", "https://example.org/storage")],
        [("storage", [⟨["repo", "repo"], [⟨"alice", "", "", ""⟩]⟩,
          ⟨["repo"], [⟨"alice", "Alice", "", ""⟩]⟩])]) ∧
    repoOwners Runtime.inserted.repositories "repo"
        [("storage", [⟨["repo", "repo"], [⟨"alice", "", "", ""⟩]⟩,
          ⟨["repo"], [⟨"alice", "Alice", "", ""⟩]⟩])] =
      ["alice", "alice", "alice"] ∧
    handleNoteEvent storageBot repeatLib Runtime.inserted storageNote =
      ⟨none, [Posted.issueComment "org" "repo" "I7"
        "Hi ***bob***, \nif you want to get quick review about your issue, please contact the owner in first: @alice , @alice , @alice ,\nand then any of the maintainers: @ ,\nand then any of the committers: @ ,\nif you have any question, please contact the SIG:."]⟩ := by
  refine ⟨rfl, rfl, rfl⟩

/-- C8. For the group `storage` with the link `https://example.org/storage`:
the issue reply ends with `please contact the SIG:.` and holds no link; the
pull-request reply has the link in the owner position, the contacts in the
maintainer position and `%!s(MISSING)` in the final position. -/
theorem replies_misplace_group_link :
    handleNoteEvent storageBot storageLib Runtime.inserted storageNote =
      ⟨none, [Posted.issueComment "org" "repo" "I7"
        "Hi ***bob***, \nif you want to get quick review about your issue, please contact the owner in first: @alice ,\nand then any of the maintainers: @ ,\nand then any of the committers: @ ,\nif you have any question, please contact the SIG:."]⟩ ∧
    genSpecialWelcomeMessage storageBot storageLib Runtime.inserted
        "org" "repo" "bob" "sig/storage" 7 =
      .ok "Hi ***bob***, \nif you want to get quick review about your pull request, please contact the owner in first: @[storage](https://example.org/storage) ,\nand then any of the maintainers: @alice ,\nand then any of the committers: @ ,\nif you have any question, please contact the SIG:%!s(MISSING)." ∧
    ¬ EndsWith
      "Hi ***bob***, \nif you want to get quick review about your pull request, please contact the owner in first: @[storage](https://example.org/storage) ,\nand then any of the maintainers: @alice ,\nand then any of the committers: @ ,\nif you have any question, please contact the SIG:%!s(MISSING)."
      "please contact the SIG:[storage](https://example.org/storage)." ∧
    ¬ Contains
      "Hi ***bob***, \nif you want to get quick review about your issue, please contact the owner in first: @alice ,\nand then any of the maintainers: @ ,\nand then any of the committers: @ ,\nif you have any question, please contact the SIG:."
      "[storage](https://example.org/storage)" := by
  refine ⟨rfl, rfl, by decide, by decide⟩

/-- C10 (as stated, refuted). The same event against the same registry gives
two different texts under two enumeration orders: of the contact set of a
pull request (the contacts are emitted in enumeration order, not sorted), of a
label set with two labels of the prefix `sig/`, and, for an issue whose label
is the label of two groups, of the map `repositories`. -/
theorem handlePREvent_depends_on_enumeration :
    handlePREvent netBot netLib Runtime.inserted netPR =
      ⟨none, [Posted.prComment "org" "repo" 7
        "[Hi ***bob***, \nif you want to get quick review about your pull request, please contact the owner in first: @[net](https://example.org/net) ,\nand then any of the maintainers: @dave ,@erin ,\nand then any of the committers: @ ,\nif you have any question, please contact the SIG:%!s(MISSING).]"]⟩ ∧
    handlePREvent netBot netLib Runtime.reversed netPR =
      ⟨none, [Posted.prComment "org" "repo" 7
        "[Hi ***bob***, \nif you want to get quick review about your pull request, please contact the owner in first: @[net](https://example.org/net) ,\nand then any of the maintainers: @erin ,@dave ,\nand then any of the committers: @ ,\nif you have any question, please contact the SIG:%!s(MISSING).]"]⟩ ∧
    handlePREvent netBot netLib Runtime.inserted netPR ≠
      handlePREvent netBot netLib Runtime.reversed netPR ∧
    handlePREvent storageBot storageLib Runtime.inserted twoLabelPR ≠
      handlePREvent storageBot storageLib Runtime.reversed twoLabelPR ∧
    handleNoteEvent twinBot twinRepoLib Runtime.inserted twinNote =
      ⟨none, [Posted.issueComment "org" "repo" "I9"
        "Hi ***carol***, \nif you want to get quick review about your issue, please contact the owner in first: @alice , @bob ,\nand then any of the maintainers: @ ,\nand then any of the committers: @ ,\nif you have any question, please contact the SIG:."]⟩ ∧
    handleNoteEvent twinBot twinRepoLib Runtime.reversed twinNote =
      ⟨none, [Posted.issueComment "org" "repo" "I9"
        "Hi ***carol***, \nif you want to get quick review about your issue, please contact the owner in first: @bob , @alice ,\nand then any of the maintainers: @ ,\nand then any of the committers: @ ,\nif you have any question, please contact the SIG:."]⟩ ∧
    handleNoteEvent twinBot twinRepoLib Runtime.inserted twinNote ≠
      handleNoteEvent twinBot twinRepoLib Runtime.reversed twinNote := by
  refine ⟨rfl, rfl, by decide, by decide, rfl, rfl, by decide⟩

/-! ## Independence of the enumeration order -/

theorem Except.error_or_ok {ε α : Type} (x : Except ε α) :
    (∃ err, x = .error err) ∨ (∃ a, x = .ok a) := by
  cases x with
  | error err => exact Or.inl ⟨err, rfl⟩
  | ok a => exact Or.inr ⟨a, rfl⟩

theorem perm_short_eq {α : Type} (l1 l2 : List α) (hp : l1.Perm l2) (hl : l2.length ≤ 1) :
    l1 = l2 := by
  match l2, hl with
  | [], _ => exact hp.eq_nil
  | [a], _ => exact hp.eq_singleton
  | _ :: _ :: _, h => simp at h

theorem Order.enum_short {α : Type} (o : Order) (l : List α) (hl : l.length ≤ 1) :
    o.enum l = l :=
  perm_short_eq _ _ (o.perm l) hl

theorem prLabelLoop_done (bot : robot) (lib : Lib) (rt : Runtime) (e : PullRequestEvent)
    (ls : List String) (msg : String) :
    prLabelLoop bot lib rt e ls [msg] = .ok [msg] := by
  cases ls with
  | nil => rfl
  | cons l ls =>
    unfold prLabelLoop
    rw [if_pos (by simp)]

/-- The loop over the labels resolves the first label with the prefix `sig/`
in enumeration order, and no other. -/
theorem prLabelLoop_first (bot : robot) (lib : Lib) (rt : Runtime) (e : PullRequestEvent)
    (ls : List String) :
    prLabelLoop bot lib rt e ls [] =
      match (ls.filter (fun l => HasPrefix l "sig/")).head? with
      | none => .ok []
      | some l =>
        match genSpecialWelcomeMessage bot lib rt e.org e.repo e.author l e.number with
        | .error err => .error err
        | .ok msg => .ok [msg] := by
  induction ls with
  | nil => rfl
  | cons l ls ih =>
    unfold prLabelLoop
    simp only [List.length_nil, gt_iff_lt, lt_self_iff_false, if_false]
    by_cases hp : HasPrefix l "sig/" = true
    · rw [if_pos hp, List.filter_cons]
      simp only [hp, if_true, List.head?_cons]
      cases genSpecialWelcomeMessage bot lib rt e.org e.repo e.author l e.number with
      | error err => rfl
      | ok msg =>
        simp only [List.nil_append]
        exact prLabelLoop_done bot lib rt e ls msg
    · rw [if_neg hp, List.filter_cons]
      simp only [hp, if_false]
      exact ih

theorem GoMap.set_ne_nil {β : Type} (m : GoMap β) (k : String) (v : β) :
    GoMap.set m k v ≠ [] := by
  cases m with
  | nil => simp [GoMap.set]
  | cons kv rest =>
    obtain ⟨k0, v0⟩ := kv
    unfold GoMap.set
    split <;> simp

theorem GoMap.length_set {β : Type} (m : GoMap β) (k : String) (v : β) :
    (GoMap.set m k v).length ≤ m.length + 1 := by
  induction m with
  | nil => simp [GoMap.set]
  | cons kv rest ih =>
    obtain ⟨k0, v0⟩ := kv
    unfold GoMap.set
    split
    · simp
    · simp only [List.length_cons]
      omega

theorem sigNameFold_short (k v : String) (changes : List PullRequestFiles) :
    (changes.foldl (fun m _ => GoMap.set m k v) ([] : GoMap String)).length ≤ 1 := by
  have key : ∀ (cs : List PullRequestFiles) (m : GoMap String), (m = [] ∨ m = [(k, v)]) →
      (cs.foldl (fun m _ => GoMap.set m k v) m).length ≤ 1 := by
    intro cs
    induction cs with
    | nil =>
      intro m hm
      rcases hm with h | h <;> simp [h]
    | cons c cs ih =>
      intro m hm
      rw [List.foldl_cons]
      apply ih
      right
      rcases hm with h | h <;> simp [h, GoMap.set]
  exact key changes [] (Or.inl rfl)

theorem collectOwners_sigName_short (bot : robot) (lib : Lib) (label : String)
    (changes : List PullRequestFiles) (owners : StringSet) (sigName : GoMap String)
    (hco : collectOwners bot lib label changes [] [] = .ok (owners, sigName)) :
    sigName.length ≤ 1 := by
  cases hd : decodeSigsContent bot lib with
  | error err =>
    cases changes with
    | nil =>
      unfold collectOwners at hco
      injection hco with hco
      injection hco with _ h2
      subst h2
      simp
    | cons c cs =>
      rw [collectOwners_of_fail bot lib err hd] at hco
      cases hco
  | ok reg =>
    rw [collectOwners_of_load bot lib reg hd] at hco
    injection hco with hco
    injection hco with _ h2
    subst h2
    exact sigNameFold_short _ _ _

theorem prReply_order_free (rt1 rt2 : Runtime) (author : String) (owners : StringSet)
    (sigName : GoMap String) (ho : owners.length = 1) (hs : sigName.length ≤ 1) :
    prReply rt1 author owners sigName = prReply rt2 author owners sigName := by
  have hne : owners ≠ [] := by
    intro h
    rw [h] at ho
    simp at ho
  unfold prReply sigsLinks firstToConnect
  rw [withFallback_of_ne owners hne, Order.enum_short rt1.sigName sigName hs,
    Order.enum_short rt2.sigName sigName hs, Order.enum_short rt1.owners owners (le_of_eq ho),
    Order.enum_short rt2.owners owners (le_of_eq ho)]

theorem genSpecialWelcomeMessage_order_free (bot : robot) (lib : Lib) (rt1 rt2 : Runtime)
    (org repo author label : String) (number : Int)
    (hone : ∀ (changes : List PullRequestFiles) (owners : StringSet) (sigName : GoMap String),
      bot.cli.GetPullRequestChanges org repo number = .ok changes →
      collectOwners bot lib label changes [] [] = .ok (owners, sigName) →
      owners.length = 1) :
    genSpecialWelcomeMessage bot lib rt1 org repo author label number =
      genSpecialWelcomeMessage bot lib rt2 org repo author label number := by
  unfold genSpecialWelcomeMessage
  cases hch : bot.cli.GetPullRequestChanges org repo number with
  | error err => rfl
  | ok changes =>
    simp only
    cases hco : collectOwners bot lib label changes [] [] with
    | error err => rfl
    | ok r =>
      obtain ⟨owners, sigName⟩ := r
      simp only
      rw [prReply_order_free rt1 rt2 author owners sigName
        (hone changes owners sigName hch hco)
        (collectOwners_sigName_short bot lib label changes owners sigName hco)]

theorem enterSigs_keeps (l : String) (sigs : List Sig)
    (acc : GoMap String × GoMap (List RepoMember)) (hacc : acc.1 ≠ []) :
    (enterSigs l sigs acc).1 ≠ [] := by
  unfold enterSigs
  induction sigs generalizing acc with
  | nil => exact hacc
  | cons s rest ih =>
    rw [List.foldl_cons]
    apply ih
    split
    · exact GoMap.set_ne_nil _ _ _
    · exact hacc

theorem enterSigs_same_or_entered (l : String) (sigs : List Sig)
    (acc : GoMap String × GoMap (List RepoMember)) :
    enterSigs l sigs acc = acc ∨ (enterSigs l sigs acc).1 ≠ [] := by
  induction sigs generalizing acc with
  | nil => exact Or.inl rfl
  | cons s rest ih =>
    by_cases hs : l = s.SigLabel
    · right
      have := enterSigs_keeps l rest
        (GoMap.set acc.1 s.Name s.SigLink, GoMap.set acc.2 s.Name s.Repos)
        (GoMap.set_ne_nil _ _ _)
      unfold enterSigs at this ⊢
      rw [List.foldl_cons, if_pos hs]
      exact this
    · have := ih acc
      unfold enterSigs at this ⊢
      rw [List.foldl_cons, if_neg hs]
      exact this

theorem enterSigs_length (l : String) (sigs : List Sig)
    (acc : GoMap String × GoMap (List RepoMember)) :
    (enterSigs l sigs acc).2.length ≤
      acc.2.length + (sigs.filter (fun s => decide (l = s.SigLabel))).length := by
  induction sigs generalizing acc with
  | nil => simp [enterSigs]
  | cons s rest ih =>
    by_cases hs : l = s.SigLabel
    · have := ih (GoMap.set acc.1 s.Name s.SigLink, GoMap.set acc.2 s.Name s.Repos)
      have hlen := GoMap.length_set acc.2 s.Name s.Repos
      unfold enterSigs at this ⊢
      rw [List.foldl_cons, if_pos hs, List.filter_cons_of_pos (by simpa using hs)]
      simp only [List.length_cons] at this ⊢
      omega
    · have := ih acc
      unfold enterSigs at this ⊢
      rw [List.foldl_cons, if_neg hs, List.filter_cons_of_neg (by simpa using hs)]
      exact this

theorem noteLabelLoop_done (bot : robot) (lib : Lib) (ls : List Label)
    (sigNames : GoMap String) (repositories : GoMap (List RepoMember))
    (hne : sigNames ≠ []) :
    noteLabelLoop bot lib ls sigNames repositories = .ok (sigNames, repositories) := by
  cases ls with
  | nil => rfl
  | cons l ls =>
    unfold noteLabelLoop
    rw [if_pos (List.length_pos.mpr hne)]

/-- The maps the loop over the issue labels returns are empty, or hold the
groups of one label. -/
theorem noteLabelLoop_shape (bot : robot) (lib : Lib) (labels : List Label)
    (sn : GoMap String) (rp : GoMap (List RepoMember))
    (h : noteLabelLoop bot lib labels [] [] = .ok (sn, rp)) :
    (sn, rp) = ([], []) ∨
      ∃ (l : String) (reg : SigYaml), decodeSigsContent bot lib = .ok reg ∧
        (sn, rp) = enterSigs l reg.Sigs ([], []) := by
  induction labels with
  | nil =>
    unfold noteLabelLoop at h
    injection h with h
    exact Or.inl h.symm
  | cons l ls ih =>
    unfold noteLabelLoop at h
    simp only [List.length_nil, gt_iff_lt, lt_self_iff_false, if_false] at h
    by_cases hp : HasPrefix l.Name "sig/" = true
    · rw [if_pos hp] at h
      rcases Except.error_or_ok (decodeSigsContent bot lib) with ⟨err, hd⟩ | ⟨reg, hd⟩
      · rw [hd] at h
        cases h
      · rw [hd] at h
        simp only at h
        rcases enterSigs_same_or_entered l.Name reg.Sigs ([], []) with hs | hs
        · rw [hs] at h
          exact ih h
        · rw [noteLabelLoop_done bot lib ls _ _ hs] at h
          injection h with h
          exact Or.inr ⟨l.Name, reg, hd, h.symm⟩
    · rw [if_neg hp] at h
      exact ih h

/-- C10 (amended). The outcome of a handler, and with it the posted text, does
not depend on the order in which the runtime enumerates the label set, the
contact set and the group-name maps when, for a pull request, at most one
label has the prefix `sig/` and every resolution of a label with the prefix
`sig/` yields exactly one contact, and, for an issue, every label is the label
of at most one group of the registry. -/
theorem reply_independent_of_enumeration (bot : robot) (lib : Lib) (rt1 rt2 : Runtime) :
    (∀ e : PullRequestEvent,
      (e.GetPRLabelSet.filter (fun l => HasPrefix l "sig/")).length ≤ 1 →
      (∀ (label : String) (changes : List PullRequestFiles) (owners : StringSet)
          (sigName : GoMap String),
        label ∈ e.labels →
        HasPrefix label "sig/" = true →
        bot.cli.GetPullRequestChanges e.org e.repo e.number = .ok changes →
        collectOwners bot lib label changes [] [] = .ok (owners, sigName) →
        owners.length = 1) →
      handlePREvent bot lib rt1 e = handlePREvent bot lib rt2 e) ∧
    (∀ e : NoteEvent,
      (∀ (reg : SigYaml) (label : String),
        decodeSigsContent bot lib = .ok reg →
        (reg.Sigs.filter (fun s => decide (label = s.SigLabel))).length ≤ 1) →
      handleNoteEvent bot lib rt1 e = handleNoteEvent bot lib rt2 e) := by
  refine ⟨?_, ?_⟩
  · intro e hlab hone
    have hf : ∀ rt : Runtime,
        (rt.labelSet.enum e.GetPRLabelSet).filter (fun l => HasPrefix l "sig/") =
          e.GetPRLabelSet.filter (fun l => HasPrefix l "sig/") := fun rt =>
      perm_short_eq _ _ ((rt.labelSet.perm _).filter _) hlab
    unfold handlePREvent
    by_cases hact : e.action ≠ PRActionUpdatedLabel
    · rw [if_pos hact, if_pos hact]
    · rw [if_neg hact, if_neg hact, prLabelLoop_first, prLabelLoop_first, hf rt1, hf rt2]
      cases hh : (e.GetPRLabelSet.filter (fun l => HasPrefix l "sig/")).head? with
      | none => rfl
      | some l =>
        have h1 : l ∈ e.GetPRLabelSet.filter (fun l => HasPrefix l "sig/") :=
          List.mem_of_mem_head? hh
        have hl : l ∈ e.labels := (mem_GetPRLabelSet e l).mp (List.mem_filter.mp h1).1
        have hpre : HasPrefix l "sig/" = true := (List.mem_filter.mp h1).2
        simp only
        rw [genSpecialWelcomeMessage_order_free bot lib rt1 rt2 e.org e.repo e.author l
          e.number (fun changes owners sigName => hone l changes owners sigName hl hpre)]
  · intro e hreg
    unfold handleNoteEvent
    split
    · rfl
    split
    · rfl
    split
    · rfl
    cases hlab : bot.cli.GetIssueLabels e.org e.repo e.number with
    | error err => rfl
    | ok labels =>
      simp only
      cases hloop : noteLabelLoop bot lib labels [] [] with
      | error err => rfl
      | ok r =>
        obtain ⟨sn, rp⟩ := r
        have hshort : rp.length ≤ 1 := by
          rcases noteLabelLoop_shape bot lib labels sn rp hloop with h | ⟨l, reg, hd, h⟩
          · injection h with _ h2
            subst h2
            simp
          · have h2 : rp = (enterSigs l reg.Sigs ([], [])).2 := congrArg Prod.snd h
            rw [h2]
            have := enterSigs_length l reg.Sigs ([], [])
            have := hreg reg l hd
            simp only [List.length_nil] at *
            omega
        simp only
        unfold repoOwners
        rw [Order.enum_short rt1.repositories rp hshort,
          Order.enum_short rt2.repositories rp hshort]

/-- C10 (amended), on a pull request with the labels `bug` and `sig/storage`
and the one contact `alice`, and on an issue against a registry of one group:
the two runtimes post the same text. -/
theorem reply_independent_of_enumeration_witness :
    (mixedPR.GetPRLabelSet.filter (fun l => HasPrefix l "sig/")).length ≤ 1 ∧
      collectOwners storageBot storageLib "sig/storage" [⟨"a.go"⟩] [] [] =
        .ok (["alice"], [("storage", "https://example.org/storage")]) ∧
      handlePREvent storageBot storageLib Runtime.inserted mixedPR =
        handlePREvent storageBot storageLib Runtime.reversed mixedPR ∧
      handleNoteEvent storageBot storageLib Runtime.inserted storageNote =
        handleNoteEvent storageBot storageLib Runtime.reversed storageNote := by
  have key := reply_independent_of_enumeration storageBot storageLib
    Runtime.inserted Runtime.reversed
  refine ⟨by decide, rfl, key.1 mixedPR (by decide) ?_, key.2 storageNote ?_⟩
  · intro label changes owners sigName hl hpre hch hco
    have h0 : label = "bug" ∨ label = "sig/storage" := by simpa [mixedPR] using hl
    have h1 : label = "sig/storage" := by
      rcases h0 with h | h
      · subst h
        revert hpre
        decide
      · exact h
    subst h1
    have h2 : (Except.ok [⟨"a.go"⟩] : Except Error (List PullRequestFiles)) = .ok changes := hch
    injection h2 with h2
    subst h2
    have h3 : collectOwners storageBot storageLib "sig/storage" [⟨"a.go"⟩] [] [] =
        .ok (["alice"], [("storage", "https://example.org/storage")]) := rfl
    rw [h3] at hco
    injection hco with hco
    injection hco with h4 _
    subst h4
    rfl
  · intro reg label hd
    have h1 : (Except.ok storageRegistry : Except Error SigYaml) = .ok reg := hd
    injection h1 with h1
    subst h1
    exact List.length_filter_le _ _

/-! ## What the handlers do in general -/

/-- An event whose action is not the label change is ignored. -/
theorem handlePREvent_other_action (bot : robot) (lib : Lib) (rt : Runtime)
    (e : PullRequestEvent) (hact : e.action ≠ PRActionUpdatedLabel) :
    handlePREvent bot lib rt e = ⟨none, []⟩ := by
  unfold handlePREvent
  rw [if_pos hact]

/-- A label event without a label of the prefix `sig/` posts the text `[]`. -/
theorem handlePREvent_no_sig_label (bot : robot) (lib : Lib) (rt : Runtime)
    (e : PullRequestEvent) (hact : e.action = PRActionUpdatedLabel)
    (hno : ∀ l ∈ e.labels, HasPrefix l "sig/" = false) :
    handlePREvent bot lib rt e =
      ⟨bot.cli.CreatePRComment e.org e.repo e.number "[]",
        [Posted.prComment e.org e.repo e.number "[]"]⟩ := by
  have hf : (rt.labelSet.enum e.GetPRLabelSet).filter (fun l => HasPrefix l "sig/") = [] := by
    rw [List.filter_eq_nil_iff]
    intro l hl
    have h1 : l ∈ e.labels :=
      (mem_GetPRLabelSet e l).mp ((rt.labelSet.perm _).mem_iff.mp hl)
    simp [hno l h1]
  unfold handlePREvent
  rw [if_neg (not_not.mpr hact), prLabelLoop_first, hf]
  rfl

/-- A label event whose first label of the prefix `sig/`, in enumeration
order, resolves to the message `msg` posts `msg` between square brackets. -/
theorem handlePREvent_sig_label (bot : robot) (lib : Lib) (rt : Runtime)
    (e : PullRequestEvent) (l msg : String) (hact : e.action = PRActionUpdatedLabel)
    (hl : ((rt.labelSet.enum e.GetPRLabelSet).filter
      (fun l => HasPrefix l "sig/")).head? = some l)
    (hmsg : genSpecialWelcomeMessage bot lib rt e.org e.repo e.author l e.number = .ok msg) :
    handlePREvent bot lib rt e =
      ⟨bot.cli.CreatePRComment e.org e.repo e.number ("[" ++ (msg ++ "]")),
        [Posted.prComment e.org e.repo e.number ("[" ++ (msg ++ "]"))]⟩ := by
  unfold handlePREvent
  rw [if_neg (not_not.mpr hact), prLabelLoop_first, hl]
  simp only
  rw [hmsg]
  rfl

theorem mem_repoOwnerFold (owners : List Member) (owner : List String) (h : String) :
    h ∈ owners.foldl (fun owner o => owner ++ [o.GiteeID]) owner ↔
      h ∈ owner ∨ ∃ o ∈ owners, o.GiteeID = h := by
  induction owners generalizing owner with
  | nil => simp
  | cons o os ih =>
    rw [List.foldl_cons, ih, List.mem_append, List.mem_singleton]
    simp only [List.mem_cons, exists_eq_or_imp]
    constructor
    · rintro ((h1 | h2) | h3)
      · exact Or.inl h1
      · exact Or.inr (Or.inl h2.symm)
      · exact Or.inr (Or.inr h3)
    · rintro (h1 | h2 | h3)
      · exact Or.inl (Or.inl h1)
      · exact Or.inl (Or.inr h2.symm)
      · exact Or.inr h3

theorem mem_repoNameFold (repo : String) (owners : List Member) (names : List String)
    (owner : List String) (h : String) :
    h ∈ names.foldl
        (fun owner rps =>
          if repo = rps then owners.foldl (fun owner o => owner ++ [o.GiteeID]) owner
          else owner) owner ↔
      h ∈ owner ∨ (repo ∈ names ∧ ∃ o ∈ owners, o.GiteeID = h) := by
  induction names generalizing owner with
  | nil => simp
  | cons p ps ih =>
    rw [List.foldl_cons, ih]
    by_cases hp : repo = p
    · subst hp
      rw [if_pos rfl, mem_repoOwnerFold]
      simp only [List.mem_cons, true_or, true_and]
      generalize (∃ o ∈ owners, o.GiteeID = h) = B
      tauto
    · rw [if_neg hp]
      simp only [List.mem_cons, hp, false_or]

theorem mem_repoRuleOwners (repo : String) (r : List RepoMember) (owner : List String)
    (h : String) :
    h ∈ repoRuleOwners repo r owner ↔
      h ∈ owner ∨ ∃ rp ∈ r, repo ∈ rp.Repo ∧ ∃ o ∈ rp.Owner, o.GiteeID = h := by
  unfold repoRuleOwners
  induction r generalizing owner with
  | nil => simp
  | cons rp rs ih =>
    rw [List.foldl_cons, ih, mem_repoNameFold]
    simp only [List.mem_cons, exists_eq_or_imp]
    rw [or_assoc]

theorem mem_repoGroupFold (repo : String) (groups : GoMap (List RepoMember))
    (owner : List String) (h : String) :
    h ∈ groups.foldl (fun owner kv => repoRuleOwners repo kv.2 owner) owner ↔
      h ∈ owner ∨
        ∃ kv ∈ groups, ∃ rp ∈ kv.2, repo ∈ rp.Repo ∧ ∃ o ∈ rp.Owner, o.GiteeID = h := by
  induction groups generalizing owner with
  | nil => simp
  | cons kv rest ih =>
    rw [List.foldl_cons, ih, mem_repoRuleOwners]
    simp only [List.mem_cons, exists_eq_or_imp]
    rw [or_assoc]

/-- The handles `handleNoteEvent` collects are those of the owners of the repo
rules, of the selected groups, that list the repository name. -/
theorem mem_repoOwners (ord : Order) (repo : String)
    (repositories : GoMap (List RepoMember)) (h : String) :
    h ∈ repoOwners ord repo repositories ↔
      ∃ kv ∈ repositories, ∃ rp ∈ kv.2, repo ∈ rp.Repo ∧ ∃ o ∈ rp.Owner, o.GiteeID = h := by
  unfold repoOwners
  rw [mem_repoGroupFold]
  simp only [List.not_mem_nil, false_or]
  constructor
  · rintro ⟨kv, hkv, rest⟩
    exact ⟨kv, (ord.perm _).mem_iff.mp hkv, rest⟩
  · rintro ⟨kv, hkv, rest⟩
    exact ⟨kv, (ord.perm _).mem_iff.mpr hkv, rest⟩

end Welcome
